import Mathlib

/-!
Verification of the Stock-Prompt-Pro batch orchestration engine.

This file shallowly embeds the core of the repository:
  * the data model of `src/types.ts` (`PromptConfig`, `StockMetadata`, `BatchItem`,
    `AnalysisState`),
  * the sequential queue runner `processBatchQueue` of `src/App.tsx` (lines 50-85),
  * batch admission `handleFilesSelect` (App.tsx 87-133) together with the PDF
    decomposition `convertPdfToImages` of `src/unnamed/part_001`,
  * the refinement controller `handleRefineItem` (App.tsx 154-183) together with
    the service wrapper `refineMetadata` of `src/unnamed/part_002`,
  * the keyword mutator `addKeyword` of `src/unnamed/part_000` (lines 306-312),
  * the id generator `generateId` of App.tsx line 13.

External capabilities (the Gemini generation backend, the pdf.js rasterizer and
the browser random source) are modelled as explicit oracle parameters; every
other definition is a direct translation of the TypeScript source.  Machine
state that the React runtime owns (the `useState` cells) is passed explicitly.
-/

namespace StockPromptPro

/-- `TargetModel` from src/types.ts line 1. -/
inductive TargetModel where
  | midjourney
  | stable_diffusion
  | firefly
  | dalle
deriving DecidableEq, Repr

/-- `KeywordDensity` from src/types.ts line 2. -/
inductive KeywordDensity where
  | low
  | standard
  | high
deriving DecidableEq, Repr

/-- `PromptConfig` from src/types.ts lines 4-9.  The `aspectRatio` field of the
source is called `aspect` here. -/
structure PromptConfig where
  targetModel : TargetModel
  aspect : String
  includeTechnical : Bool
  keywordDensity : KeywordDensity
deriving DecidableEq, Repr

/-- `StockMetadata` from src/types.ts lines 11-19. -/
structure StockMetadata where
  title : String
  description : String
  ai_prompt : String
  keywords : List String
  category : String
  technical_settings : Option String
  used_model : Option TargetModel
deriving DecidableEq, Repr

/-- The per-item lifecycle status, src/types.ts line 24. -/
inductive Status where
  | pending
  | processing
  | completed
  | error
deriving DecidableEq, Repr

/-- A selected browser `File`: its name, its declared media type, and an opaque
token standing for its binary content. -/
structure PFile where
  name : String
  ftype : String
  content : Nat
deriving DecidableEq, Repr

/-- `BatchItem` from src/types.ts lines 21-27. -/
structure BatchItem where
  id : String
  file : PFile
  status : Status
  data : Option StockMetadata
  error : Option String
deriving DecidableEq, Repr

/-- `AnalysisState` from src/types.ts lines 29-33. -/
structure AnalysisState where
  items : List BatchItem
  isProcessing : Bool
  activeItemId : Option String
deriving DecidableEq, Repr

/-! ## Generic queue helpers

`itemOf` models `items.find(i => i.id === id)`; `updWhere` models the
`items.map(i => i.id === id ? patch i : i)` update idiom that every state
mutation in src/App.tsx uses. -/

/-- JavaScript `array.find(i => i.id === id)`. -/
def itemOf : List BatchItem → String → Option BatchItem
  | [], _ => none
  | i :: rest, id => if i.id = id then some i else itemOf rest id

/-- JavaScript `items.map(i => i.id === id ? f i : i)`. -/
def updWhere (id : String) (f : BatchItem → BatchItem) (l : List BatchItem) :
    List BatchItem :=
  l.map fun i => if i.id = id then f i else i

/-- Status of the item with the given id, if present. -/
def statusOf (l : List BatchItem) (id : String) : Option Status :=
  (itemOf l id).map (·.status)

/-- Stored error message of the item with the given id, if present. -/
def errMsgOf (l : List BatchItem) (id : String) : Option String :=
  (itemOf l id).bind (·.error)

/-- A status option is terminal when it is `completed` or `error`. -/
def isTerminal (st : Option Status) : Prop :=
  st = some Status.completed ∨ st = some Status.error

instance (st : Option Status) : Decidable (isTerminal st) := by
  unfold isTerminal; infer_instance

/-! ## Keyword mutator (src/unnamed/part_000, lines 306-312)

```js
const addKeyword = (keyword: string) => {
  const cleanKw = keyword.trim();
  if (cleanKw && !data.keywords.includes(cleanKw)) {
    onUpdate({ ...data, keywords: [...data.keywords, cleanKw] });
    ...
  }
};
```
An empty string is falsy in JavaScript, so a keyword that trims to `""` is a
no-op even when `""` is absent from the sequence. -/

/-- JavaScript `String.prototype.trim`: strip leading and trailing whitespace.
Defined over the character list so that it evaluates inside the kernel. -/
def jsTrim (s : String) : String :=
  ⟨((s.data.dropWhile Char.isWhitespace).reverse.dropWhile Char.isWhitespace).reverse⟩

/-- The keyword-add operation on a keyword sequence. -/
def addKeyword (keywords : List String) (keyword : String) : List String :=
  let cleanKw := jsTrim keyword
  if cleanKw ≠ "" ∧ cleanKw ∉ keywords then keywords ++ [cleanKw] else keywords

/-- C9 counterexample.  The claim says the add operation appends the trimmed
keyword whenever it does not already occur verbatim; but for the empty keyword
(`jsTrim "" = ""`, which does not occur in `[]`) the source is a no-op because an
empty string is falsy in the JavaScript guard `if (cleanKw && ...)`. -/
theorem addKeyword_empty_not_appended :
    (jsTrim "" ∉ ([] : List String)) ∧ addKeyword [] "" ≠ [] ++ [jsTrim ""] := by
  decide

/-- C9 (amended): `addKeyword` is a no-op when the trimmed keyword is empty or
already occurs verbatim in the sequence; otherwise it appends the trimmed
keyword at the end.  Consequently adding the same trimmed keyword twice yields
the same sequence as adding it once, with exactly one occurrence of the
keyword, appended at the position of first insertion. -/
theorem addKeyword_spec (kws : List String) (kw : String) :
    (jsTrim kw = "" → addKeyword kws kw = kws)
    ∧ (jsTrim kw ∈ kws → addKeyword kws kw = kws)
    ∧ (jsTrim kw ≠ "" → jsTrim kw ∉ kws → addKeyword kws kw = kws ++ [jsTrim kw])
    ∧ addKeyword (addKeyword kws kw) kw = addKeyword kws kw
    ∧ (jsTrim kw ≠ "" → jsTrim kw ∉ kws →
        (addKeyword (addKeyword kws kw) kw).count (jsTrim kw) = 1) := by
  refine ⟨?_, ?_, ?_, ?_, ?_⟩
  · intro h; simp [addKeyword, h]
  · intro h; simp [addKeyword, h]
  · intro h1 h2; simp [addKeyword, h1, h2]
  · by_cases h1 : jsTrim kw = ""
    · simp [addKeyword, h1]
    · by_cases h2 : jsTrim kw ∈ kws
      · simp [addKeyword, h1, h2]
      · have hstep : addKeyword kws kw = kws ++ [jsTrim kw] := by
          simp [addKeyword, h1, h2]
        rw [hstep]
        have hmem : jsTrim kw ∈ kws ++ [jsTrim kw] := by simp
        simp [addKeyword, hmem]
  · intro h1 h2
    have hstep : addKeyword kws kw = kws ++ [jsTrim kw] := by
      simp [addKeyword, h1, h2]
    have hmem : jsTrim kw ∈ kws ++ [jsTrim kw] := by simp
    rw [hstep]
    have hnoop : addKeyword (kws ++ [jsTrim kw]) kw = kws ++ [jsTrim kw] := by
      simp [addKeyword, hmem]
    rw [hnoop, List.count_append]
    have hzero : kws.count (jsTrim kw) = 0 :=
      List.count_eq_zero.mpr h2
    simp [hzero]

/-! ## Queue runner (src/App.tsx, lines 50-85)

```js
const processBatchQueue = async (itemsToProcess: BatchItem[]) => {
  setState(prev => ({ ...prev, isProcessing: true }));
  for (const item of itemsToProcess) {
    setState(prev => ({ ...prev,
      items: prev.items.map(i => i.id === item.id ? { ...i, status: 'processing' } : i)}));
    try {
      const result = await generateStockMetadata(item.file, promptConfig);
      setState(prev => ({ ...prev,
        items: prev.items.map(i => i.id === item.id ?
          { ...i, status: 'completed', data: result } : i)}));
    } catch (error) {
      setState(prev => ({ ...prev,
        items: prev.items.map(i => i.id === item.id ?
          { ...i, status: 'error', error: error.message || "Failed to process" } : i)}));
    }
  }
  setState(prev => ({ ...prev, isProcessing: false }));
};
```

`generateStockMetadata` is an external call; it is modelled by an oracle
`gen : Nat → PromptConfig → Except (Option String) StockMetadata` giving, for
every call position of the run and the config passed to the call, either the
parsed metadata or a thrown failure carrying an optional message
(`none`/empty models a thrown value without a usable `.message`).

`promptConfig` inside the loop is the `useState` value captured by the render
closure that started the run: it is a `const` of that render and therefore the
same value at every iteration, regardless of later `setPromptConfig` calls. -/

/-- JavaScript `error.message || fallback`: an absent or empty message yields
the fallback (empty strings are falsy). -/
def jsOrStr (m : Option String) (fallback : String) : String :=
  match m with
  | some s => if s = "" then fallback else s
  | none => fallback

/-- The `status: 'processing'` update of App.tsx line 56-59. -/
def setProcessing (l : List BatchItem) (id : String) : List BatchItem :=
  updWhere id (fun i => { i with status := Status.processing }) l

/-- The terminal patch a resolved generation call applies to its item:
`{ ...i, status: 'completed', data: result }` on success,
`{ ...i, status: 'error', error: error.message || "Failed to process" }` on
failure (App.tsx lines 64-80). -/
def finalizeItem (r : Except (Option String) StockMetadata) (i : BatchItem) :
    BatchItem :=
  match r with
  | Except.ok d => { i with status := Status.completed, data := some d }
  | Except.error e =>
      { i with status := Status.error, error := some (jsOrStr e "Failed to process") }

/-- The state update of a resolved generation call (App.tsx lines 64-80). -/
def applyResult (l : List BatchItem) (id : String)
    (r : Except (Option String) StockMetadata) : List BatchItem :=
  updWhere id (finalizeItem r) l

/-- The sequential loop of `processBatchQueue`, threading the items state.
`p` is the position of the next call in the run; `config` is the closure's
`promptConfig`. -/
def runFrom (gen : Nat → PromptConfig → Except (Option String) StockMetadata)
    (config : PromptConfig) :
    Nat → List BatchItem → List BatchItem → List BatchItem
  | _, s, [] => s
  | p, s, item :: rest =>
      runFrom gen config (p + 1)
        (applyResult (setProcessing s item.id) item.id (gen p config)) rest

/-- `processBatchQueue` restricted to the items state: the final items list
after the run over `itemsToProcess` resolves. -/
def processBatchQueue
    (gen : Nat → PromptConfig → Except (Option String) StockMetadata)
    (config : PromptConfig) (s itemsToProcess : List BatchItem) :
    List BatchItem :=
  runFrom gen config 0 s itemsToProcess

/-- Every intermediate items state published by `processBatchQueue` via
`setState`, in order: after each `status: 'processing'` update and after each
terminal update. -/
def runTrace (gen : Nat → PromptConfig → Except (Option String) StockMetadata)
    (config : PromptConfig) :
    Nat → List BatchItem → List BatchItem → List (List BatchItem)
  | _, _, [] => []
  | p, s, item :: rest =>
      let s1 := setProcessing s item.id
      let s2 := applyResult s1 item.id (gen p config)
      s1 :: s2 :: runTrace gen config (p + 1) s2 rest

/-- The config value passed to `generateStockMetadata` at each call of the run,
in call order.  The source passes the closure constant `promptConfig` at every
iteration (App.tsx line 62). -/
def runCallConfigs
    (gen : Nat → PromptConfig → Except (Option String) StockMetadata)
    (config : PromptConfig) :
    Nat → List BatchItem → List BatchItem → List PromptConfig
  | _, _, [] => []
  | p, s, item :: rest =>
      config :: runCallConfigs gen config (p + 1)
        (applyResult (setProcessing s item.id) item.id (gen p config)) rest

/-! ### Pointwise view of the runner

Every `setState` in the loop is a `map` over the items list with an
id-preserving per-element function, so the whole run acts pointwise on the
initial state.  `runItem` is the per-element action. -/

/-- Per-element action of the run on one stored item. -/
def runItem (gen : Nat → PromptConfig → Except (Option String) StockMetadata)
    (config : PromptConfig) :
    Nat → List BatchItem → BatchItem → BatchItem
  | _, [], x => x
  | p, item :: rest, x =>
      runItem gen config (p + 1) rest
        (if x.id = item.id then
          finalizeItem (gen p config) { x with status := Status.processing }
        else x)

theorem finalizeItem_id (r : Except (Option String) StockMetadata)
    (i : BatchItem) : (finalizeItem r i).id = i.id := by
  cases r <;> rfl

theorem runItem_id (gen : Nat → PromptConfig → Except (Option String) StockMetadata)
    (config : PromptConfig) :
    ∀ (l : List BatchItem) (p : Nat) (x : BatchItem),
      (runItem gen config p l x).id = x.id := by
  intro l
  induction l with
  | nil => intro p x; rfl
  | cons item rest ih =>
      intro p x
      show (runItem gen config (p + 1) rest _).id = x.id
      rw [ih]
      by_cases h : x.id = item.id <;> simp [h, finalizeItem_id]

theorem itemOf_map_of_id (F : BatchItem → BatchItem)
    (hF : ∀ x, (F x).id = x.id) :
    ∀ (l : List BatchItem) (id : String),
      itemOf (l.map F) id = (itemOf l id).map F := by
  intro l
  induction l with
  | nil => intro id; rfl
  | cons a l ih =>
      intro id
      by_cases h : a.id = id
      · simp [itemOf, hF, h]
      · simp [itemOf, hF, h, ih]

theorem itemOf_updWhere (id : String) (f : BatchItem → BatchItem)
    (hf : ∀ x, (f x).id = x.id) (l : List BatchItem) (id' : String) :
    itemOf (updWhere id f l) id' =
      (itemOf l id').map (fun i => if i.id = id then f i else i) := by
  unfold updWhere
  exact itemOf_map_of_id _ (fun x => by by_cases h : x.id = id <;> simp [h, hf]) l id'

theorem itemOf_eq_some (l : List BatchItem) (id : String) (x : BatchItem)
    (h : itemOf l id = some x) : x.id = id := by
  induction l with
  | nil => simp [itemOf] at h
  | cons a l ih =>
      by_cases ha : a.id = id
      · simp [itemOf, ha] at h; rw [← h]; exact ha
      · simp [itemOf, ha] at h; exact ih h

theorem statusOf_setProcessing_ne (l : List BatchItem) (id id' : String)
    (h : id' ≠ id) : statusOf (setProcessing l id) id' = statusOf l id' := by
  unfold statusOf setProcessing
  rw [itemOf_updWhere id (fun i => { i with status := Status.processing })
    (fun x => rfl) l id']
  cases hfind : itemOf l id' with
  | none => rfl
  | some x =>
      have hx : x.id = id' := itemOf_eq_some l id' x hfind
      simp [hx, h]

theorem statusOf_applyResult_ne (l : List BatchItem) (id id' : String)
    (r : Except (Option String) StockMetadata) (h : id' ≠ id) :
    statusOf (applyResult l id r) id' = statusOf l id' := by
  unfold statusOf applyResult
  rw [itemOf_updWhere id (finalizeItem r) (finalizeItem_id r) l id']
  cases hfind : itemOf l id' with
  | none => rfl
  | some x =>
      have hx : x.id = id' := itemOf_eq_some l id' x hfind
      simp [hx, h]

theorem statusOf_applyResult_self (l : List BatchItem) (id : String)
    (r : Except (Option String) StockMetadata) (x : BatchItem)
    (h : itemOf l id = some x) :
    isTerminal (statusOf (applyResult l id r) id) := by
  unfold statusOf applyResult
  rw [itemOf_updWhere id (finalizeItem r) (finalizeItem_id r) l id, h]
  have hx : x.id = id := itemOf_eq_some l id x h
  cases r with
  | ok d => left; simp [hx, finalizeItem]
  | error e => right; simp [hx, finalizeItem]

theorem itemOf_setProcessing_isSome (l : List BatchItem) (id id' : String) :
    (itemOf (setProcessing l id) id').isSome = (itemOf l id').isSome := by
  unfold setProcessing
  rw [itemOf_updWhere id (fun i => { i with status := Status.processing })
    (fun x => rfl) l id']
  cases itemOf l id' <;> rfl

theorem statusOf_runTrace_not_mem
    (gen : Nat → PromptConfig → Except (Option String) StockMetadata)
    (config : PromptConfig) :
    ∀ (l : List BatchItem) (p : Nat) (s : List BatchItem) (id : String),
      (∀ x ∈ l, x.id ≠ id) →
      ∀ t ∈ runTrace gen config p s l, statusOf t id = statusOf s id := by
  intro l
  induction l with
  | nil => intro p s id _ t ht; simp [runTrace] at ht
  | cons item rest ih =>
      intro p s id hid t ht
      have hitem : item.id ≠ id := hid item (List.mem_cons_self item rest)
      have h1 : statusOf (setProcessing s item.id) id = statusOf s id :=
        statusOf_setProcessing_ne s item.id id (fun h => hitem h.symm)
      have h2 : statusOf
          (applyResult (setProcessing s item.id) item.id (gen p config)) id
          = statusOf s id := by
        rw [statusOf_applyResult_ne _ _ _ _ (fun h => hitem h.symm), h1]
      simp only [runTrace, List.mem_cons] at ht
      rcases ht with rfl | rfl | ht
      · exact h1
      · exact h2
      · rw [ih (p + 1) _ id (fun x hx => hid x (List.mem_cons_of_mem _ hx)) t ht, h2]

theorem runTrace_order_aux
    (gen : Nat → PromptConfig → Except (Option String) StockMetadata)
    (config : PromptConfig) :
    ∀ (l : List BatchItem) (p : Nat) (s : List BatchItem),
      (l.map (·.id)).Nodup →
      (∀ x ∈ l, statusOf s x.id = some Status.pending) →
      ∀ t ∈ runTrace gen config p s l,
        ∀ j k (hj : j < l.length) (hk : k < l.length), j < k →
          statusOf t (l.get ⟨k, hk⟩).id ≠ some Status.pending →
          isTerminal (statusOf t (l.get ⟨j, hj⟩).id) := by
  intro l
  induction l with
  | nil => intro p s _ _ t ht; simp [runTrace] at ht
  | cons item rest ih =>
      intro p s hnodup hpend t ht j k hj hk hjk hknp
      have hnotin : item.id ∉ rest.map (·.id) := (List.nodup_cons.mp hnodup).1
      have hrest : ∀ x ∈ rest, x.id ≠ item.id := by
        intro x hx heq
        exact hnotin (heq ▸ List.mem_map_of_mem (·.id) hx)
      have hpend1 : ∀ x ∈ rest,
          statusOf (setProcessing s item.id) x.id = some Status.pending := by
        intro x hx
        rw [statusOf_setProcessing_ne s item.id x.id (hrest x hx)]
        exact hpend x (List.mem_cons_of_mem _ hx)
      have hpend2 : ∀ x ∈ rest,
          statusOf (applyResult (setProcessing s item.id) item.id (gen p config))
            x.id = some Status.pending := by
        intro x hx
        rw [statusOf_applyResult_ne _ _ _ _ (hrest x hx)]
        exact hpend1 x hx
      obtain ⟨k', rfl⟩ : ∃ k', k = k' + 1 := by
        cases k with
        | zero => omega
        | succ k' => exact ⟨k', rfl⟩
      have hk' : k' < rest.length := by simpa using hk
      have hgetk : (item :: rest).get ⟨k' + 1, hk⟩ = rest.get ⟨k', hk'⟩ := rfl
      have hkmem : rest.get ⟨k', hk'⟩ ∈ rest := List.get_mem rest k' hk'
      -- the item with index k in the batch is still pending in s1 and s2
      simp only [runTrace, List.mem_cons] at ht
      rcases ht with rfl | rfl | ht
      · exact absurd (hgetk ▸ hpend1 _ hkmem) hknp
      · exact absurd (hgetk ▸ hpend2 _ hkmem) hknp
      · -- t is a state of the run over `rest`
        have hterm2 : isTerminal
            (statusOf (applyResult (setProcessing s item.id) item.id (gen p config))
              item.id) := by
          have hpendItem := hpend item (List.mem_cons_self item rest)
          have hsome : (itemOf s item.id).isSome := by
            unfold statusOf at hpendItem
            cases h : itemOf s item.id with
            | none => rw [h] at hpendItem; simp at hpendItem
            | some x => rfl
          have hsome1 : (itemOf (setProcessing s item.id) item.id).isSome := by
            rw [itemOf_setProcessing_isSome]; exact hsome
          obtain ⟨x, hx⟩ := Option.isSome_iff_exists.mp hsome1
          exact statusOf_applyResult_self _ _ _ x hx
        cases j with
        | zero =>
            have hfix : statusOf t item.id =
                statusOf (applyResult (setProcessing s item.id) item.id
                  (gen p config)) item.id :=
              statusOf_runTrace_not_mem gen config rest (p + 1) _ item.id hrest t ht
            show isTerminal (statusOf t item.id)
            rw [hfix]
            exact hterm2
        | succ j' =>
            have hj' : j' < rest.length := by simpa using hj
            have hgetj : (item :: rest).get ⟨j' + 1, hj⟩ = rest.get ⟨j', hj'⟩ := rfl
            rw [hgetj]
            rw [hgetk] at hknp
            exact ih (p + 1) _ (List.nodup_cons.mp hnodup).2 hpend2 t ht j' k'
              hj' hk' (by omega) hknp

/-- C1: the queue runner drains an admitted batch strictly sequentially in
admission order.  At every items state published during the run of
`itemsToProcess` (all admitted as `pending`, with pairwise distinct ids), if
unit `k` is no longer `pending` then every earlier unit `j < k` has already
reached a terminal state (`completed` or `error`); hence terminal states are
reached in admission order. -/
theorem processBatchQueue_sequential
    (gen : Nat → PromptConfig → Except (Option String) StockMetadata)
    (config : PromptConfig) (s itemsToProcess : List BatchItem)
    (hnodup : (itemsToProcess.map (·.id)).Nodup)
    (hpend : ∀ x ∈ itemsToProcess, statusOf s x.id = some Status.pending) :
    ∀ t ∈ runTrace gen config 0 s itemsToProcess,
      ∀ j k (hj : j < itemsToProcess.length) (hk : k < itemsToProcess.length),
        j < k →
        statusOf t (itemsToProcess.get ⟨k, hk⟩).id ≠ some Status.pending →
        isTerminal (statusOf t (itemsToProcess.get ⟨j, hj⟩).id) :=
  runTrace_order_aux gen config itemsToProcess 0 s hnodup hpend

/-! Concrete fixtures used by the witnesses below. -/

/-- A concrete metadata value. -/
def mdSample : StockMetadata :=
  ⟨"Sunset", "A sunset", "sunset --ar 16:9", ["sun", "sky"], "Nature", none,
    some TargetModel.midjourney⟩

/-- An always-succeeding generation oracle. -/
def genOk : Nat → PromptConfig → Except (Option String) StockMetadata :=
  fun _ _ => Except.ok mdSample

/-- A generation oracle whose second call (position 1) throws. -/
def genFailAt1 : Nat → PromptConfig → Except (Option String) StockMetadata :=
  fun p _ => if p = 1 then Except.error (some "boom") else Except.ok mdSample

/-- The initial shared config of App.tsx lines 22-27. -/
def cfg0 : PromptConfig :=
  ⟨TargetModel.midjourney, "16:9", true, KeywordDensity.standard⟩

/-- A config differing from `cfg0` in the aspect-ratio field. -/
def cfg1 : PromptConfig := { cfg0 with aspect := "1:1" }

/-- Concrete selected files. -/
def fileA : PFile := ⟨"a.jpg", "image/jpeg", 1⟩

/-- Concrete selected files. -/
def fileB : PFile := ⟨"b.jpg", "image/jpeg", 2⟩

/-- Concrete admitted units. -/
def itemA : BatchItem := ⟨"idA", fileA, Status.pending, none, none⟩

/-- Concrete admitted units. -/
def itemB : BatchItem := ⟨"idB", fileB, Status.pending, none, none⟩

/-- C1 witness: in the state published right after unit 1 of the batch
`[itemA, itemB]` left `pending` (it became `processing`), unit 0 is terminal. -/
theorem processBatchQueue_sequential_witness :
    isTerminal (statusOf
      [{ itemA with status := Status.completed, data := some mdSample },
       { itemB with status := Status.processing }] "idA") :=
  processBatchQueue_sequential genOk cfg0 [itemA, itemB] [itemA, itemB]
    (by decide) (by decide)
    [{ itemA with status := Status.completed, data := some mdSample },
     { itemB with status := Status.processing }]
    (by decide) 0 1 (by decide) (by decide) (by decide) (by decide)

/-! ### The run acts pointwise on the stored items -/

theorem applyResult_setProcessing (s : List BatchItem) (id : String)
    (r : Except (Option String) StockMetadata) :
    applyResult (setProcessing s id) id r =
      s.map (fun i => if i.id = id then
        finalizeItem r { i with status := Status.processing } else i) := by
  unfold applyResult setProcessing updWhere
  rw [List.map_map]
  apply List.map_congr_left
  intro i _
  by_cases h : i.id = id
  · simp [Function.comp, h]
  · simp [Function.comp, h]

theorem runFrom_eq_map
    (gen : Nat → PromptConfig → Except (Option String) StockMetadata)
    (config : PromptConfig) :
    ∀ (l : List BatchItem) (p : Nat) (s : List BatchItem),
      runFrom gen config p s l = s.map (runItem gen config p l) := by
  intro l
  induction l with
  | nil =>
      intro p s
      show s = s.map (runItem gen config p [])
      have h : s.map (runItem gen config p []) = s.map (fun x => x) :=
        List.map_congr_left (fun x _ => rfl)
      rw [h, List.map_id']
  | cons item rest ih =>
      intro p s
      show runFrom gen config (p + 1)
          (applyResult (setProcessing s item.id) item.id (gen p config)) rest = _
      rw [ih, applyResult_setProcessing, List.map_map]
      apply List.map_congr_left
      intro i _
      rfl

theorem runItem_congrGen
    (gen gen' : Nat → PromptConfig → Except (Option String) StockMetadata)
    (config : PromptConfig) (k : Nat)
    (hagree : ∀ p c, p ≠ k → gen' p c = gen p c) :
    ∀ (l : List BatchItem) (p : Nat) (x : BatchItem),
      (∀ i (hi : i < l.length), p + i = k → x.id ≠ (l.get ⟨i, hi⟩).id) →
      runItem gen' config p l x = runItem gen config p l x := by
  intro l
  induction l with
  | nil => intro p x _; rfl
  | cons item rest ih =>
      intro p x hx
      show runItem gen' config (p + 1) rest _ = runItem gen config (p + 1) rest _
      by_cases hpk : p = k
      · have hne : x.id ≠ item.id := hx 0 (by simp) (by omega)
        rw [if_neg hne, if_neg hne]
        apply ih
        intro i hi hik
        exact hx (i + 1) (by simpa using Nat.succ_lt_succ hi) (by omega)
      · rw [hagree p config hpk]
        apply ih
        intro i hi hik
        have hxid : (if x.id = item.id then
            finalizeItem (gen p config) { x with status := Status.processing }
          else x).id = x.id := by
          by_cases h : x.id = item.id <;> simp [h, finalizeItem_id]
        rw [hxid]
        exact hx (i + 1) (by simpa using Nat.succ_lt_succ hi) (by omega)

theorem runItem_not_mem
    (gen : Nat → PromptConfig → Except (Option String) StockMetadata)
    (config : PromptConfig) :
    ∀ (l : List BatchItem) (p : Nat) (x : BatchItem),
      (∀ y ∈ l, x.id ≠ y.id) → runItem gen config p l x = x := by
  intro l
  induction l with
  | nil => intro p x _; rfl
  | cons item rest ih =>
      intro p x hx
      show runItem gen config (p + 1) rest _ = x
      rw [if_neg (hx item (List.mem_cons_self item rest))]
      exact ih (p + 1) x (fun y hy => hx y (List.mem_cons_of_mem _ hy))

theorem runItem_at
    (gen : Nat → PromptConfig → Except (Option String) StockMetadata)
    (config : PromptConfig) :
    ∀ (l : List BatchItem) (j : Nat) (hj : j < l.length) (p : Nat) (x : BatchItem),
      x.id = (l.get ⟨j, hj⟩).id →
      (∀ i (hi : i < l.length), i ≠ j → x.id ≠ (l.get ⟨i, hi⟩).id) →
      runItem gen config p l x =
        finalizeItem (gen (p + j) config) { x with status := Status.processing } := by
  intro l
  induction l with
  | nil => intro j hj; simp at hj
  | cons item rest ih =>
      intro j hj p x heq huniq
      cases j with
      | zero =>
          have hid : x.id = item.id := heq
          show runItem gen config (p + 1) rest _ = _
          rw [if_pos hid]
          rw [Nat.add_zero]
          apply runItem_not_mem
          intro y hy
          rw [finalizeItem_id]
          obtain ⟨⟨i, hi⟩, hyi⟩ := List.mem_iff_get.mp hy
          have : x.id ≠ (rest.get ⟨i, hi⟩).id :=
            huniq (i + 1) (by simpa using Nat.succ_lt_succ hi) (Nat.succ_ne_zero i)
          rw [hyi] at this
          exact this
      | succ j' =>
          have hj' : j' < rest.length := by simpa using hj
          have hne : x.id ≠ item.id := huniq 0 (by simp) (Nat.succ_ne_zero j').symm
          show runItem gen config (p + 1) rest _ = _
          rw [if_neg hne]
          have hres := ih j' hj' (p + 1) x heq
            (fun i hi hij => huniq (i + 1) (by simpa using Nat.succ_lt_succ hi)
              (by omega))
          rw [hres]
          have harith : p + 1 + j' = p + (j' + 1) := by omega
          rw [harith]

/-- Distinct positions of a batch with `Nodup` ids carry distinct ids. -/
theorem nodup_get_id_ne (l : List BatchItem)
    (hnodup : (l.map (·.id)).Nodup) :
    ∀ i j (hi : i < l.length) (hj : j < l.length), i ≠ j →
      (l.get ⟨i, hi⟩).id ≠ (l.get ⟨j, hj⟩).id := by
  intro i j hi hj hne heq
  have hi' : i < (l.map (·.id)).length := by simpa using hi
  have hj' : j < (l.map (·.id)).length := by simpa using hj
  have hmap : (l.map (·.id)).get ⟨i, hi'⟩ = (l.map (·.id)).get ⟨j, hj'⟩ := by
    simpa [List.get_map] using heq
  have := (List.Nodup.get_inj_iff hnodup).mp hmap
  exact hne (congrArg Fin.val this)

/-- C2: failure isolation.  Run the same admitted batch under two generation
oracles that agree everywhere except at call position `k`, where the second
throws a failure carrying the optional message `e`.  Then in the final items
state of the failing run (i) every stored item whose id differs from unit k's
id is exactly the item of the non-failing run, (ii) unit k ends in status
`error`, (iii) unit k stores the failure's message, or the generic
`"Failed to process"` fallback when the failure carries no usable message, and
(iv) every unit of the batch was still attempted and reached a terminal
state. -/
theorem processBatchQueue_failure_isolation
    (gen gen' : Nat → PromptConfig → Except (Option String) StockMetadata)
    (config : PromptConfig) (s l : List BatchItem) (k : Nat)
    (hk : k < l.length) (e : Option String)
    (hagree : ∀ p c, p ≠ k → gen' p c = gen p c)
    (hfail : gen' k config = Except.error e)
    (hnodup : (l.map (·.id)).Nodup)
    (hpend : ∀ x ∈ l, statusOf s x.id = some Status.pending) :
    (∀ id, id ≠ (l.get ⟨k, hk⟩).id →
        itemOf (processBatchQueue gen' config s l) id
          = itemOf (processBatchQueue gen config s l) id)
    ∧ statusOf (processBatchQueue gen' config s l) (l.get ⟨k, hk⟩).id
        = some Status.error
    ∧ errMsgOf (processBatchQueue gen' config s l) (l.get ⟨k, hk⟩).id
        = some (jsOrStr e "Failed to process")
    ∧ ∀ j (hj : j < l.length),
        isTerminal (statusOf (processBatchQueue gen' config s l)
          (l.get ⟨j, hj⟩).id) := by
  have hrw' : processBatchQueue gen' config s l = s.map (runItem gen' config 0 l) :=
    runFrom_eq_map gen' config l 0 s
  have hrw : processBatchQueue gen config s l = s.map (runItem gen config 0 l) :=
    runFrom_eq_map gen config l 0 s
  have hdist := nodup_get_id_ne l hnodup
  -- a helper: the final stored item for a batch unit
  have hfinal : ∀ (g : Nat → PromptConfig → Except (Option String) StockMetadata)
      (j : Nat) (hj : j < l.length) (x : BatchItem),
      itemOf s (l.get ⟨j, hj⟩).id = some x →
      itemOf (s.map (runItem g config 0 l)) (l.get ⟨j, hj⟩).id =
        some (finalizeItem (g j config) { x with status := Status.processing }) := by
    intro g j hj x hx
    rw [itemOf_map_of_id _ (runItem_id g config l 0), hx]
    have hxid : x.id = (l.get ⟨j, hj⟩).id := itemOf_eq_some _ _ _ hx
    have := runItem_at g config l j hj 0 x hxid
      (fun i hi hij => by rw [hxid]; exact (hdist j i hj hi (fun h => hij h.symm)))
    rw [Option.map_some', this, Nat.zero_add]
  have hsome : ∀ (j : Nat) (hj : j < l.length),
      ∃ x, itemOf s (l.get ⟨j, hj⟩).id = some x := by
    intro j hj
    have := hpend _ (List.get_mem l j hj)
    unfold statusOf at this
    cases h : itemOf s (l.get ⟨j, hj⟩).id with
    | none => rw [h] at this; simp at this
    | some x => exact ⟨x, rfl⟩
  refine ⟨?_, ?_, ?_, ?_⟩
  · -- (i) units other than k are untouched by the forced failure
    intro id hne
    rw [hrw, hrw', itemOf_map_of_id _ (runItem_id gen config l 0),
      itemOf_map_of_id _ (runItem_id gen' config l 0)]
    cases hfind : itemOf s id with
    | none => rfl
    | some x =>
        have hxid : x.id = id := itemOf_eq_some _ _ _ hfind
        rw [Option.map_some', Option.map_some',
          runItem_congrGen gen gen' config k hagree l 0 x
            (fun i hi hik => by
              rw [hxid]
              have : i = k := by omega
              subst this
              exact hne)]
  · -- (ii) unit k ends in error
    obtain ⟨x, hx⟩ := hsome k hk
    rw [hrw', statusOf, hfinal gen' k hk x hx, hfail]
    rfl
  · -- (iii) unit k stores the failure message or the fallback
    obtain ⟨x, hx⟩ := hsome k hk
    rw [hrw', errMsgOf, hfinal gen' k hk x hx, hfail]
    rfl
  · -- (iv) every unit reaches a terminal state
    intro j hj
    obtain ⟨x, hx⟩ := hsome j hj
    rw [hrw', statusOf, hfinal gen' j hj x hx]
    cases gen' j config with
    | ok d => left; rfl
    | error e => right; rfl

/-- C2 witness: forcing the second call of the batch `[itemA, itemB]` to
fail leaves unit 0 exactly as in the non-failing run and puts unit 1 in
`error` with the thrown message. -/
theorem processBatchQueue_failure_isolation_witness :
    itemOf (processBatchQueue genFailAt1 cfg0 [itemA, itemB] [itemA, itemB]) "idA"
        = itemOf (processBatchQueue genOk cfg0 [itemA, itemB] [itemA, itemB]) "idA"
    ∧ statusOf (processBatchQueue genFailAt1 cfg0 [itemA, itemB] [itemA, itemB])
        "idB" = some Status.error
    ∧ errMsgOf (processBatchQueue genFailAt1 cfg0 [itemA, itemB] [itemA, itemB])
        "idB" = some "boom" := by
  have h := processBatchQueue_failure_isolation genOk genFailAt1 cfg0
    [itemA, itemB] [itemA, itemB] 1 (by decide) (some "boom")
    (fun p c hp => by simp [genFailAt1, genOk, hp])
    (by simp [genFailAt1])
    (by decide) (by decide)
  exact ⟨h.1 "idA" (by decide), h.2.1, h.2.2.1⟩

/-! ## C3: which config does each generation call receive?

The spec asserts the shared `GenerationConfig` is read at call time.  In the
source, `promptConfig` inside `processBatchQueue` is the `useState` value of
the render closure in which the run was started: a `const` fixed at admission
time.  A `setPromptConfig` issued while the run is suspended on an `await`
creates a new closure for the next render but does not change the value the
in-flight loop reads, so every call of a run receives the config captured at
admission.  `sharedCfgAt p` below models an execution in which the shared
config is changed between the start of call 0 and the start of call 1 (for
example by the aspect-ratio side effect of a refinement on an already-completed
unit, App.tsx line 175). -/

/-- The shared config value at the start of call `p` of a run in an execution
where the shared config changed after the first call started: `cfg0` at
admission, `cfg1` from call 1 on. -/
def sharedCfgAt : Nat → PromptConfig :=
  fun p => if p = 0 then cfg0 else cfg1

/-- C3 counterexample.  In a run of two units started with captured config
`cfg0`, with the shared config changed to `cfg1` before the second call starts
(`sharedCfgAt 1 = cfg1`), the second generation call still receives `cfg0`,
not the current shared value — the claim that each call reads the shared
config as it stands when the call starts is false on the code. -/
theorem config_read_at_call_time_counterexample :
    (runCallConfigs genOk cfg0 0 [itemA, itemB] [itemA, itemB]).get? 1 = some cfg0
    ∧ cfg0 ≠ sharedCfgAt 1 := by
  decide

/-- C3 (amended): every generation call of a batch run is invoked with the
`PromptConfig` captured by the closure that started the run (its value at
admission time); a change to the shared config while the run is mid-flight
affects no unit of that run, only runs started afterwards. -/
theorem runner_uses_captured_config
    (gen : Nat → PromptConfig → Except (Option String) StockMetadata)
    (config : PromptConfig) :
    ∀ (l : List BatchItem) (p : Nat) (s : List BatchItem),
      runCallConfigs gen config p s l = l.map (fun _ => config) := by
  intro l
  induction l with
  | nil => intro p s; rfl
  | cons item rest ih =>
      intro p s
      show config :: _ = config :: _
      rw [ih]

/-! ## Refinement controller (src/App.tsx lines 154-183, src/unnamed/part_002
lines 60-120)

`refineMetadata` (the service) asks the backend for refreshed metadata and
tags the parsed result with the config's target model
(`return { ...metadata, used_model: config.targetModel }`); any thrown error
is re-thrown as the fixed message `"Gagal melakukan refine prompt."`.  The raw
backend response is the oracle.

`handleRefineItem` (the controller):
```js
const handleRefineItem = async (id, instruction, newAspectRatio) => {
  const item = state.items.find(i => i.id === id);
  if (!item || !item.data) return;
  setIsRefining(true);
  try {
    const refineConfig = { ...promptConfig, aspectRatio: newAspectRatio };
    const refinedResult = await refineMetadata(item.data, instruction, refineConfig);
    setState(prev => ({ ...prev,
      items: prev.items.map(i => i.id === id ? { ...i, data: refinedResult } : i)}));
    setPromptConfig(prev => ({ ...prev, aspectRatio: newAspectRatio }));
  } catch (error) {
    console.error("Refine failed", error);
  } finally { setIsRefining(false); }
};
```
The catch branch reports the failure (the log) and leaves both the items state
and the shared config untouched. -/

/-- The service wrapper `refineMetadata` of src/unnamed/part_002: the oracle is
the parsed backend response (or the thrown failure). -/
def refineMetadata (oracle : Except String StockMetadata)
    (config : PromptConfig) : Except String StockMetadata :=
  match oracle with
  | Except.ok m => Except.ok { m with used_model := some config.targetModel }
  | Except.error _ => Except.error "Gagal melakukan refine prompt."

/-- Result of one `handleRefineItem` call: the items state and shared config
afterwards, and the failure report of the catch branch, if any. -/
structure RefineOutcome where
  state : AnalysisState
  config : PromptConfig
  failureLogged : Option String
deriving Repr

/-- The refinement controller `handleRefineItem` of src/App.tsx lines 154-183.
`instruction` only feeds the backend prompt and is absorbed by the oracle. -/
def handleRefineItem (oracle : Except String StockMetadata)
    (s : AnalysisState) (config : PromptConfig) (id : String)
    (_instruction : String) (newAspect : String) : RefineOutcome :=
  match itemOf s.items id with
  | none => ⟨s, config, none⟩
  | some item =>
      match item.data with
      | none => ⟨s, config, none⟩
      | some _ =>
          let refineConfig := { config with aspect := newAspect }
          match refineMetadata oracle refineConfig with
          | Except.ok refinedResult =>
              ⟨{ s with items :=
                  updWhere id (fun i => { i with data := some refinedResult }) s.items },
                { config with aspect := newAspect }, none⟩
          | Except.error msg => ⟨s, config, some msg⟩

/-- C5: non-destructive refinement failure.  For a unit found with a non-null
`result` (under the item invariant: a `completed` unit), a failing refinement
call leaves the entire batch state and the shared config exactly unchanged —
in particular the unit's `result` and its `completed` status — and the failure
is reported (the catch branch observes the fixed re-thrown refine failure
message). -/
theorem handleRefineItem_failure_nondestructive
    (oracle : Except String StockMetadata) (s : AnalysisState)
    (config : PromptConfig) (id instruction newAspect : String)
    (item : BatchItem) (msg : String)
    (hfind : itemOf s.items id = some item)
    (hdata : item.data.isSome)
    (hfail : oracle = Except.error msg) :
    (handleRefineItem oracle s config id instruction newAspect).state = s
    ∧ (handleRefineItem oracle s config id instruction newAspect).config = config
    ∧ (handleRefineItem oracle s config id instruction newAspect).failureLogged
        = some "Gagal melakukan refine prompt."
    ∧ itemOf (handleRefineItem oracle s config id instruction newAspect).state.items
        id = some item := by
  obtain ⟨d, hd⟩ := Option.isSome_iff_exists.mp hdata
  subst hfail
  have hred : handleRefineItem (Except.error msg) s config id instruction newAspect
      = ⟨s, config, some "Gagal melakukan refine prompt."⟩ := by
    simp only [handleRefineItem, hfind, hd, refineMetadata]
  rw [hred]
  exact ⟨rfl, rfl, rfl, hfind⟩

/-- The unit `itemA` once completed with `mdSample`. -/
def completedA : BatchItem :=
  { itemA with status := Status.completed, data := some mdSample }

/-- A batch state holding the single completed unit `completedA`. -/
def stateA : AnalysisState := ⟨[completedA], false, some "idA"⟩

/-- C5 witness. -/
theorem handleRefineItem_failure_witness :
    (handleRefineItem (Except.error "net down") stateA cfg0 "idA" "warmer light"
        "4:5").state = stateA
    ∧ (handleRefineItem (Except.error "net down") stateA cfg0 "idA" "warmer light"
        "4:5").failureLogged = some "Gagal melakukan refine prompt." :=
  have h := handleRefineItem_failure_nondestructive (Except.error "net down")
    stateA cfg0 "idA" "warmer light" "4:5" completedA "net down"
    (by decide) (by decide) rfl
  ⟨h.1, h.2.2.1⟩

/-- C6: successful refinement.  For a unit found with a non-null `result`, a
successful refinement call whose parsed backend response is `m` replaces that
unit's `result` entirely with `m` tagged `used_model := targetModel` of the
current shared config, leaves every other stored item and the rest of the
batch state unchanged, and — as a deliberate side effect — sets the shared
config's aspect ratio to the `newAspect` passed to the call. -/
theorem handleRefineItem_success
    (oracle : Except String StockMetadata) (s : AnalysisState)
    (config : PromptConfig) (id instruction newAspect : String)
    (item : BatchItem) (m : StockMetadata)
    (hfind : itemOf s.items id = some item)
    (hdata : item.data.isSome)
    (hok : oracle = Except.ok m) :
    itemOf (handleRefineItem oracle s config id instruction newAspect).state.items id
        = some { item with
            data := some { m with used_model := some config.targetModel } }
    ∧ (handleRefineItem oracle s config id instruction newAspect).config
        = { config with aspect := newAspect }
    ∧ (∀ id', id' ≠ id →
        itemOf (handleRefineItem oracle s config id instruction newAspect).state.items
          id' = itemOf s.items id')
    ∧ (handleRefineItem oracle s config id instruction newAspect).state.isProcessing
        = s.isProcessing
    ∧ (handleRefineItem oracle s config id instruction newAspect).state.activeItemId
        = s.activeItemId := by
  obtain ⟨d, hd⟩ := Option.isSome_iff_exists.mp hdata
  subst hok
  have hid : item.id = id := itemOf_eq_some _ _ _ hfind
  have hred : handleRefineItem (Except.ok m) s config id instruction newAspect
      = RefineOutcome.mk
          { s with items := updWhere id (fun i => { i with data := some { m with used_model := some config.targetModel } }) s.items }
          { config with aspect := newAspect }
          none := by
    simp only [handleRefineItem, hfind, hd, refineMetadata]
  rw [hred]
  refine ⟨?_, rfl, ?_, rfl, rfl⟩
  · show itemOf (updWhere id (fun i => { i with data := some { m with used_model := some config.targetModel } }) s.items) id = _
    rw [itemOf_updWhere id (fun i => { i with data := some { m with used_model := some config.targetModel } }) (fun x => rfl) s.items id, hfind]
    simp [hid]
  · intro id' hne
    show itemOf (updWhere id (fun i => { i with data := some { m with used_model := some config.targetModel } }) s.items) id' = _
    rw [itemOf_updWhere id (fun i => { i with data := some { m with used_model := some config.targetModel } }) (fun x => rfl) s.items id']
    cases hfind' : itemOf s.items id' with
    | none => rfl
    | some y =>
        have hyid : y.id = id' := itemOf_eq_some _ _ _ hfind'
        simp [hyid, hne]

/-- `mdSample` tagged with the target model of `cfg0`. -/
def mdTagged : StockMetadata :=
  { mdSample with used_model := some cfg0.targetModel }

/-- C6 witness. -/
theorem handleRefineItem_success_witness :
    itemOf (handleRefineItem (Except.ok mdSample) stateA cfg0 "idA" "warmer light"
        "4:5").state.items "idA" = some { completedA with data := some mdTagged }
    ∧ (handleRefineItem (Except.ok mdSample) stateA cfg0 "idA" "warmer light"
        "4:5").config = { cfg0 with aspect := "4:5" } :=
  have h := handleRefineItem_success (Except.ok mdSample) stateA cfg0 "idA"
    "warmer light" "4:5" completedA mdSample (by decide) (by decide) rfl
  ⟨h.1, h.2.1⟩

/-! ## PDF decomposition (src/unnamed/part_001) and admission (App.tsx 87-133)

`convertPdfToImages`:
```js
const pdfjsLib = window.pdfjsLib;
if (!pdfjsLib) throw new Error("PDF Library not loaded. Please refresh the page.");
try {
  const pdf = await pdfjsLib.getDocument({ data: arrayBuffer }).promise;
  const maxPages = Math.min(pdf.numPages, 10);
  for (let i = 1; i <= maxPages; i++) {
    ... render page i to a canvas, canvas.toBlob(...) ...
    if (blob) {
      const fileName = pdfFile.name.replace('.pdf', '') + "_page_" + i + ".jpg";
      images.push(new File([blob], fileName, { type: 'image/jpeg' }));
    }
  }
  return images;
} catch (error) {
  throw new Error("Gagal memproses file PDF. Pastikan file tidak rusak/terpassword.");
}
```
The pdf.js engine is the oracle: `getNumPages` is the (possibly rejecting)
document parse, `renderPage` is the per-page rasterization, returning `none`
when the canvas yields no context or no blob (the source then skips the
page). -/

/-- The pdf.js capability used by `convertPdfToImages`. -/
structure PdfEngine where
  getNumPages : Nat → Except String Nat
  renderPage : Nat → Nat → Option Nat

/-- JavaScript `String.prototype.replace` with a plain-string pattern: replace
the first occurrence only. -/
def replaceFirst (s pat : String) : String :=
  match s.splitOn pat with
  | [] => s
  | [x] => x
  | x :: xs => x ++ String.intercalate pat xs

/-- The page-image file name built at src/unnamed/part_001 line 42. -/
def pageFileName (pdfName : String) (i : Nat) : String :=
  replaceFirst pdfName ".pdf" ++ "_page_" ++ toString i ++ ".jpg"

/-- `convertPdfToImages` of src/unnamed/part_001.  `eng = none` models a
missing `window.pdfjsLib`. -/
def convertPdfToImages (eng : Option PdfEngine) (pdfFile : PFile) :
    Except String (List PFile) :=
  match eng with
  | none => Except.error "PDF Library not loaded. Please refresh the page."
  | some lib =>
      match lib.getNumPages pdfFile.content with
      | Except.error _ =>
          Except.error "Gagal memproses file PDF. Pastikan file tidak rusak/terpassword."
      | Except.ok numPages =>
          let maxPages := min numPages 10
          Except.ok ((List.range' 1 maxPages).filterMap fun i =>
            (lib.renderPage pdfFile.content i).map fun blob =>
              ⟨pageFileName pdfFile.name i, "image/jpeg", blob⟩)

/-- The per-file normalization step of `handleFilesSelect` (App.tsx 93-106):
a PDF is decomposed; if decomposition throws, the original file is pushed
unmodified; a non-PDF file is pushed unmodified. -/
def filesFor (eng : Option PdfEngine) (f : PFile) : List PFile :=
  if f.ftype = "application/pdf" then
    match convertPdfToImages eng f with
    | Except.ok images => images
    | Except.error _ => [f]
  else [f]

/-- The `finalFiles` list accumulated by the loop of App.tsx 93-106. -/
def finalFilesOf (eng : Option PdfEngine) (files : List PFile) : List PFile :=
  files.flatMap (filesFor eng)

/-! ## Unit factory (App.tsx line 13 and 108-114)

```js
const generateId = () =>
  Math.random().toString(36).substring(2, 15) +
  Math.random().toString(36).substring(2, 15);
...
const newItems = finalFiles.map(file => ({
  id: generateId(), file, status: 'pending', data: null, error: null }));
```
`rand k` is the string produced by the k-th `Math.random().toString(36)
.substring(2, 15)` call of the session; `generateId` consumes two consecutive
draws.  There is no collision check. -/

/-- `generateId` of App.tsx line 13: the `k`-th id generated in a session. -/
def generateId (rand : Nat → String) (k : Nat) : String :=
  rand (2 * k) ++ rand (2 * k + 1)

/-- The `finalFiles.map(file => ({id: generateId(), ...}))` of App.tsx
108-114; `c` counts the `generateId` calls already made in the session. -/
def mkItems (rand : Nat → String) : Nat → List PFile → List BatchItem
  | _, [] => []
  | c, f :: fs =>
      ⟨generateId rand c, f, Status.pending, none, none⟩ :: mkItems rand (c + 1) fs

theorem filterMap_all_some {a b : Type} (g : a → Option b) :
    ∀ (l : List a), (∀ x ∈ l, (g x).isSome) →
      (l.filterMap g).length = l.length ∧
      ∀ k, (l.filterMap g).get? k = (l.get? k).bind g := by
  intro l
  induction l with
  | nil =>
      intro _
      exact ⟨rfl, fun k => by cases k <;> rfl⟩
  | cons x l ih =>
      intro hall
      obtain ⟨y, hy⟩ := Option.isSome_iff_exists.mp (hall x (List.mem_cons_self x l))
      have htail := ih (fun z hz => hall z (List.mem_cons_of_mem _ hz))
      have hcons : (x :: l).filterMap g = y :: l.filterMap g :=
        List.filterMap_cons_some hy
      constructor
      · rw [hcons, List.length_cons, htail.1, List.length_cons]
      · intro k
        cases k with
        | zero => rw [hcons]; simp [hy]
        | succ k =>
            rw [hcons]
            simp only [List.get?_cons_succ]
            exact htail.2 k

/-- C7: the 10-page cap.  For a PDF whose document parse reports more than 10
pages and whose first 10 pages each rasterize to a blob, decomposition
produces exactly 10 single-page raster inputs, and the k-th (0-based) is the
JPEG named `<original minus the first ".pdf">_page_<k+1>.jpg`. -/
theorem convertPdfToImages_cap (lib : PdfEngine) (f : PFile) (n : Nat)
    (hn : lib.getNumPages f.content = Except.ok n) (hbig : 10 < n)
    (hrender : ∀ i, 1 ≤ i → i ≤ 10 → (lib.renderPage f.content i).isSome) :
    ∃ images, convertPdfToImages (some lib) f = Except.ok images
      ∧ images.length = 10
      ∧ ∀ k (hk : k < images.length),
          (images.get ⟨k, hk⟩).name = pageFileName f.name (k + 1)
          ∧ (images.get ⟨k, hk⟩).ftype = "image/jpeg" := by
  have hmin : min n 10 = 10 := by omega
  set g : Nat → Option PFile := fun i =>
    (lib.renderPage f.content i).map fun blob =>
      ⟨pageFileName f.name i, "image/jpeg", blob⟩ with hg
  have hall : ∀ i ∈ List.range' 1 10, (g i).isSome := by
    intro i hi
    have hi2 : 1 ≤ i ∧ i < 1 + 10 := List.mem_range'_1.mp hi
    obtain ⟨b, hb⟩ :=
      Option.isSome_iff_exists.mp (hrender i hi2.1 (by omega))
    simp [hg, hb]
  have hlen10 : (List.range' 1 10).length = 10 := by simp
  obtain ⟨hlen, hget⟩ := filterMap_all_some g (List.range' 1 10) hall
  refine ⟨(List.range' 1 10).filterMap g, ?_, ?_, ?_⟩
  · simp only [convertPdfToImages, hn]
    rw [hmin]
  · rw [hlen, hlen10]
  · intro k hk
    have hk2 : k < (List.range' 1 10).length := by rw [hlen10]; omega
    have hval : ∃ b, lib.renderPage f.content (1 + k) = some b := by
      refine Option.isSome_iff_exists.mp (hrender (1 + k) (by omega) ?_)
      rw [hlen, hlen10] at hk
      omega
    obtain ⟨b, hb⟩ := hval
    have hq : (List.filterMap g (List.range' 1 10)).get? k
        = some ⟨pageFileName f.name (1 + k), "image/jpeg", b⟩ := by
      rw [hget k, List.get?_eq_get hk2]
      have hidx : (List.range' 1 10).get ⟨k, hk2⟩ = 1 + k := by
        simp [List.get_range']
      rw [hidx]
      simp [hg, hb]
    rw [List.get?_eq_get hk] at hq
    have heq := Option.some.inj hq
    rw [heq]
    have harith : 1 + k = k + 1 := Nat.add_comm 1 k
    rw [harith]
    exact ⟨rfl, rfl⟩

/-- A concrete pdf.js engine: a 25-page document whose pages all render. -/
def libBig : PdfEngine := ⟨fun _ => Except.ok 25, fun _ i => some i⟩

/-- A concrete pdf.js engine that rejects the document parse. -/
def libBad : PdfEngine := ⟨fun _ => Except.error "bad xref", fun _ _ => none⟩

/-- A concrete selected PDF file. -/
def filePdf : PFile := ⟨"doc.pdf", "application/pdf", 7⟩

/-- C7 witness: a 25-page PDF decomposes into exactly 10 page images with the
expected names. -/
theorem convertPdfToImages_cap_witness :
    ∃ images, convertPdfToImages (some libBig) filePdf = Except.ok images
      ∧ images.length = 10
      ∧ ∀ k (hk : k < images.length),
          (images.get ⟨k, hk⟩).name = pageFileName filePdf.name (k + 1)
          ∧ (images.get ⟨k, hk⟩).ftype = "image/jpeg" :=
  convertPdfToImages_cap libBig filePdf 25 rfl (by omega) (fun _ _ _ => rfl)

theorem mkItems_length (rand : Nat → String) :
    ∀ (files : List PFile) (c : Nat),
      (mkItems rand c files).length = files.length := by
  intro files
  induction files with
  | nil => intro c; rfl
  | cons f fs ih =>
      intro c
      show (mkItems rand (c + 1) fs).length + 1 = fs.length + 1
      rw [ih]

/-- C8: every selected file of a supported media type yields at least one
admitted unit.  The environment hypothesis is the spec's model of the external
pdf.js capability: a successfully parsed PDF document has at least one page
and its first page rasterizes to a blob.  In particular, when PDF
decomposition throws, the original PDF file is passed through unmodified as a
single input rather than being dropped. -/
theorem supported_file_yields_unit (eng : Option PdfEngine) (f : PFile)
    (rand : Nat → String) (c : Nat)
    (hsupp : f.ftype ∈ (["image/jpeg", "image/png", "image/webp",
      "application/pdf"] : List String))
    (henv : ∀ lib n, eng = some lib → lib.getNumPages f.content = Except.ok n →
      1 ≤ n ∧ (lib.renderPage f.content 1).isSome) :
    1 ≤ (mkItems rand c (filesFor eng f)).length
    ∧ ∀ msg, convertPdfToImages eng f = Except.error msg → filesFor eng f = [f] := by
  constructor
  · rw [mkItems_length]
    by_cases hpdf : f.ftype = "application/pdf"
    · simp only [filesFor, if_pos hpdf]
      cases hconv : convertPdfToImages eng f with
      | error _ => simp
      | ok images =>
          cases eng with
          | none => simp [convertPdfToImages] at hconv
          | some lib =>
              cases hnum : lib.getNumPages f.content with
              | error e =>
                  simp only [convertPdfToImages, hnum] at hconv
                  simp at hconv
              | ok n =>
                  obtain ⟨hn1, hr1⟩ := henv lib n rfl hnum
                  obtain ⟨b, hb⟩ := Option.isSome_iff_exists.mp hr1
                  have hred : convertPdfToImages (some lib) f =
                      Except.ok ((List.range' 1 (min n 10)).filterMap fun i =>
                        (lib.renderPage f.content i).map fun blob =>
                          ⟨pageFileName f.name i, "image/jpeg", blob⟩) := by
                    simp only [convertPdfToImages, hnum]
                  rw [hred] at hconv
                  have himg := Except.ok.inj hconv
                  have hmem1 : (1 : Nat) ∈ List.range' 1 (min n 10) :=
                    List.mem_range'_1.mpr ⟨Nat.le_refl 1, by omega⟩
                  have hmem : (⟨pageFileName f.name 1, "image/jpeg", b⟩ : PFile)
                      ∈ images := by
                    rw [← himg]
                    exact List.mem_filterMap.mpr ⟨1, hmem1, by simp [hb]⟩
                  exact List.length_pos_of_mem hmem
    · simp [filesFor, hpdf]
  · intro msg hconv
    by_cases hpdf : f.ftype = "application/pdf"
    · simp [filesFor, hpdf, hconv]
    · simp [filesFor, hpdf]

/-- C8 witness: a PDF whose document parse rejects falls back to the original
file and still yields one admitted unit. -/
theorem supported_file_yields_unit_witness :
    1 ≤ (mkItems (fun _ => "a") 0 (filesFor (some libBad) filePdf)).length
    ∧ filesFor (some libBad) filePdf = [filePdf] :=
  have h := supported_file_yields_unit (some libBad) filePdf (fun _ => "a") 0
    (by decide)
    (fun lib n hl hn => by
      cases Option.some.inj hl
      exact absurd hn (by simp [libBad]))
  ⟨h.1, h.2 "Gagal memproses file PDF. Pastikan file tidak rusak/terpassword." rfl⟩

/-- The constant random source: every `Math.random().toString(36)
.substring(2, 15)` draw yields `"a"`. -/
def constRand : Nat → String := fun _ => "a"

/-- C10 counterexample.  `generateId` concatenates two `Math.random` draws
with no collision check, so two units created in one session can share an id:
under a random source that repeats, both units of this call get id `"aa"`. -/
theorem generateId_collision :
    ((mkItems constRand 0 [fileA, fileB]).map (·.id)) = ["aa", "aa"]
    ∧ ¬ ((mkItems constRand 0 [fileA, fileB]).map (·.id)).Nodup := by
  decide

/-- C10 (amended): every unit-creation call produces fresh units with
`status = pending`, null result and null error message, and assigns the k-th
new unit the id `generateId` built from the session's next pair of random
draws; ids are unique only insofar as the underlying random draws do not
repeat — the code performs no collision check, so global uniqueness is not
guaranteed. -/
theorem mkItems_fresh (rand : Nat → String) :
    ∀ (files : List PFile) (c : Nat),
      (∀ x ∈ mkItems rand c files,
        x.status = Status.pending ∧ x.data = none ∧ x.error = none)
      ∧ (mkItems rand c files).length = files.length
      ∧ ∀ k (hk : k < (mkItems rand c files).length),
          ((mkItems rand c files).get ⟨k, hk⟩).id = generateId rand (c + k) := by
  intro files
  induction files with
  | nil =>
      intro c
      refine ⟨?_, rfl, ?_⟩
      · intro x hx; simp [mkItems] at hx
      · intro k hk; simp [mkItems] at hk
  | cons f fs ih =>
      intro c
      refine ⟨?_, ?_, ?_⟩
      · intro x hx
        rcases List.mem_cons.mp hx with rfl | hx
        · exact ⟨rfl, rfl, rfl⟩
        · exact ((ih (c + 1)).1) x hx
      · show (mkItems rand (c + 1) fs).length + 1 = fs.length + 1
        rw [(ih (c + 1)).2.1]
      · intro k hk
        cases k with
        | zero => show (generateId rand c) = generateId rand (c + 0); rw [Nat.add_zero]
        | succ k =>
            have hk' : k < (mkItems rand (c + 1) fs).length := by
              have h2 : (mkItems rand c (f :: fs)).length
                  = (mkItems rand (c + 1) fs).length + 1 := rfl
              rw [h2] at hk
              omega
            have := (ih (c + 1)).2.2 k hk'
            show ((mkItems rand (c + 1) fs).get ⟨k, hk'⟩).id = _
            rw [this]
            have harith : c + 1 + k = c + (k + 1) := by omega
            rw [harith]

/-- C10 witness for the amended theorem. -/
theorem mkItems_fresh_witness :
    (⟨generateId constRand 0, fileA, Status.pending, none, none⟩ : BatchItem).status
        = Status.pending
    ∧ (mkItems constRand 0 [fileA]).length = 1 :=
  have h := mkItems_fresh constRand [fileA] 0
  ⟨(h.1 ⟨generateId constRand 0, fileA, Status.pending, none, none⟩ (by decide)).1,
    h.2.1⟩

/-! ## C4: the result/error status invariant over reachable batch states

`Reachable` enumerates the batch states produced by the operations of
src/App.tsx as the application invokes them:

  * the initial state (App.tsx 16-20) and `handleClear` (135-141);
  * admission: `handleFilesSelect` appends fresh units and sets the active
    pointer to `prev.activeItemId || newItems[0].id` (108-124);
  * the queue runner's `isProcessing` flips and its per-unit `processing`
    and terminal updates (50-85) — the runner only marks `processing` a unit
    it just admitted as `pending`, and only finalizes the unit it just marked
    `processing`, which the guard hypotheses of the two step constructors
    record;
  * `handleSelectItem` (143-145);
  * `handleUpdateItem` (147-152) — invoked by the UI only for the unit whose
    completed metadata is being edited, which the guard hypothesis records;
  * `handleRefineItem` (154-183), with the same guard.
-/

/-- JavaScript `a || b` on nullable strings (an empty string is falsy). -/
def jsOrOpt (a : Option String) (b : Option String) : Option String :=
  match a with
  | some v => if v = "" then b else some v
  | none => b

/-- The admission update of App.tsx 116-124: append the new units and default
the active pointer to the first new unit. -/
def appendItems (s : AnalysisState) (newItems : List BatchItem) : AnalysisState :=
  { s with items := s.items ++ newItems,
           activeItemId := jsOrOpt s.activeItemId (newItems.head?.map (·.id)) }

/-- The per-item invariant of spec §3: `result` is non-null iff the status is
`completed`, and `errorMessage` is non-null iff the status is `error`. -/
def ItemInv (x : BatchItem) : Prop :=
  (x.data.isSome ↔ x.status = Status.completed)
  ∧ (x.error.isSome ↔ x.status = Status.error)

instance (x : BatchItem) : Decidable (ItemInv x) := by
  unfold ItemInv; infer_instance

/-- Every stored unit satisfies the per-item invariant. -/
def StateInv (s : AnalysisState) : Prop := ∀ x ∈ s.items, ItemInv x

/-- The batch states reachable through the operations of src/App.tsx. -/
inductive Reachable : AnalysisState → Prop where
  | start : Reachable ⟨[], false, none⟩
  | appendBatch (s : AnalysisState) (rand : Nat → String) (c : Nat)
      (newFiles : List PFile) (h : Reachable s) :
      Reachable (appendItems s (mkItems rand c newFiles))
  | beginRun (s : AnalysisState) (h : Reachable s) :
      Reachable { s with isProcessing := true }
  | stepProcessing (s : AnalysisState) (id : String) (h : Reachable s)
      (hp : ∀ x ∈ s.items, x.id = id → x.status = Status.pending) :
      Reachable { s with items := setProcessing s.items id }
  | stepResolve (s : AnalysisState) (id : String)
      (r : Except (Option String) StockMetadata) (h : Reachable s)
      (hp : ∀ x ∈ s.items, x.id = id → x.status = Status.processing) :
      Reachable { s with items := applyResult s.items id r }
  | finishRun (s : AnalysisState) (h : Reachable s) :
      Reachable { s with isProcessing := false }
  | selectItem (s : AnalysisState) (id : String) (h : Reachable s) :
      Reachable { s with activeItemId := some id }
  | clearAll (s : AnalysisState) (h : Reachable s) : Reachable ⟨[], false, none⟩
  | updateItem (s : AnalysisState) (id : String) (newData : StockMetadata)
      (h : Reachable s)
      (hc : ∀ x ∈ s.items, x.id = id → x.status = Status.completed) :
      Reachable { s with items := updWhere id (fun i => { i with data := some newData }) s.items }
  | refineStep (s : AnalysisState) (config : PromptConfig)
      (oracle : Except String StockMetadata) (id instruction newAspect : String)
      (h : Reachable s)
      (hc : ∀ x ∈ s.items, x.id = id → x.status = Status.completed) :
      Reachable (handleRefineItem oracle s config id instruction newAspect).state

theorem data_none_of_ne_completed (y : BatchItem) (hi : ItemInv y)
    (hne : y.status ≠ Status.completed) : y.data = none := by
  cases hd : y.data with
  | none => rfl
  | some d => exact absurd (hi.1.mp (by rw [hd]; rfl)) hne

theorem error_none_of_ne_error (y : BatchItem) (hi : ItemInv y)
    (hne : y.status ≠ Status.error) : y.error = none := by
  cases he : y.error with
  | none => rfl
  | some e => exact absurd (hi.2.mp (by rw [he]; rfl)) hne

theorem mkItems_fields (rand : Nat → String) :
    ∀ (files : List PFile) (c : Nat), ∀ x ∈ mkItems rand c files,
      x.status = Status.pending ∧ x.data = none ∧ x.error = none := by
  intro files
  induction files with
  | nil => intro c x hx; simp [mkItems] at hx
  | cons f fs ih =>
      intro c x hx
      rcases List.mem_cons.mp hx with rfl | hx
      · exact ⟨rfl, rfl, rfl⟩
      · exact ih (c + 1) x hx

theorem updData_inv (items : List BatchItem) (id : String) (d : StockMetadata)
    (hinv : ∀ x ∈ items, ItemInv x)
    (hc : ∀ x ∈ items, x.id = id → x.status = Status.completed) :
    ∀ x ∈ updWhere id (fun i => { i with data := some d }) items, ItemInv x := by
  intro x hx
  obtain ⟨y, hy, rfl⟩ := List.mem_map.mp hx
  by_cases hid : y.id = id
  · rw [if_pos hid]
    have hcomp := hc y hy hid
    have he := error_none_of_ne_error y (hinv y hy) (by rw [hcomp]; decide)
    exact ⟨by simp [hcomp], by simp [he, hcomp]⟩
  · rw [if_neg hid]; exact hinv y hy

/-- C4: in every reachable batch state, every unit's `result` is non-null iff
its status is `completed` and its `errorMessage` is non-null iff its status is
`error` (so `pending` and `processing` units have both null); every operation
— admission, the queue runner's transitions, selection, clear, the unit
mutator and the refinement controller — preserves the invariant. -/
theorem reachable_state_invariant : ∀ s, Reachable s → StateInv s := by
  intro s h
  induction h with
  | start => intro x hx; simp at hx
  | appendBatch s rand c newFiles h ih =>
      intro x hx
      rcases List.mem_append.mp hx with hx | hx
      · exact ih x hx
      · obtain ⟨h1, h2, h3⟩ := mkItems_fields rand newFiles c x hx
        exact ⟨by simp [h1, h2], by simp [h1, h3]⟩
  | beginRun s h ih => intro x hx; exact ih x hx
  | stepProcessing s id h hp ih =>
      intro x hx
      obtain ⟨y, hy, rfl⟩ := List.mem_map.mp hx
      by_cases hid : y.id = id
      · rw [if_pos hid]
        have hpend := hp y hy hid
        have hd := data_none_of_ne_completed y (ih y hy) (by rw [hpend]; decide)
        have he := error_none_of_ne_error y (ih y hy) (by rw [hpend]; decide)
        exact ⟨by simp [hd], by simp [he]⟩
      · rw [if_neg hid]; exact ih y hy
  | stepResolve s id r h hp ih =>
      intro x hx
      obtain ⟨y, hy, rfl⟩ := List.mem_map.mp hx
      by_cases hid : y.id = id
      · rw [if_pos hid]
        have hproc := hp y hy hid
        have hd := data_none_of_ne_completed y (ih y hy) (by rw [hproc]; decide)
        have he := error_none_of_ne_error y (ih y hy) (by rw [hproc]; decide)
        cases r with
        | ok d => exact ⟨by simp [finalizeItem], by simp [finalizeItem, he]⟩
        | error e => exact ⟨by simp [finalizeItem, hd], by simp [finalizeItem]⟩
      · rw [if_neg hid]; exact ih y hy
  | finishRun s h ih => intro x hx; exact ih x hx
  | selectItem s id h ih => intro x hx; exact ih x hx
  | clearAll s h ih => intro x hx; simp at hx
  | updateItem s id newData h hc ih => exact updData_inv s.items id newData ih hc
  | refineStep s config oracle id instruction newAspect h hc ih =>
      cases hfind : itemOf s.items id with
      | none => simp only [handleRefineItem, hfind]; exact ih
      | some item =>
          cases hd : item.data with
          | none => simp only [handleRefineItem, hfind, hd]; exact ih
          | some d0 =>
              cases horacle : oracle with
              | error msg =>
                  simp only [handleRefineItem, hfind, hd, refineMetadata, horacle]
                  exact ih
              | ok m =>
                  simp only [handleRefineItem, hfind, hd, refineMetadata, horacle]
                  intro x hx
                  exact updData_inv s.items id _ ih hc x hx

/-- A demonstration admission state: one fresh unit appended to the empty
batch. -/
def demoS1 : AnalysisState :=
  appendItems ⟨[], false, none⟩ (mkItems constRand 0 [fileA])

/-- `demoS1` with the runner started. -/
def demoS2 : AnalysisState := { demoS1 with isProcessing := true }

/-- `demoS2` with its unit marked `processing`. -/
def demoS3 : AnalysisState :=
  { demoS2 with items := setProcessing demoS2.items "aa" }

/-- C4 witness: the invariant holds of a concrete reachable state. -/
theorem reachable_state_invariant_witness : StateInv demoS3 :=
  reachable_state_invariant demoS3
    (Reachable.stepProcessing demoS2 "aa"
      (Reachable.beginRun demoS1
        (Reachable.appendBatch ⟨[], false, none⟩ constRand 0 [fileA]
          Reachable.start))
      (by decide))

/-- C9 witness: the amended theorem applied at a concrete input. -/
theorem addKeyword_spec_witness :
    (addKeyword ["sky"] " sea " = ["sky", "sea"])
    ∧ (addKeyword (addKeyword ["sky"] " sea ") " sea ").count (jsTrim " sea ") = 1 := by
  refine ⟨?_, ?_⟩
  · have h := (addKeyword_spec ["sky"] " sea ").2.2.1 (by decide) (by decide)
    simpa using h
  · exact (addKeyword_spec ["sky"] " sea ").2.2.2.2 (by decide) (by decide)

end StockPromptPro
